import Mathlib

/-!
Shallow embedding of the ISQ specification pipeline in `src/utils/api.ts`
(the Stage 1 generator, Stage 2 extractor and Stage 3 reconciler of the
Spec-Creation repository), together with theorems settling the spec claims.

Strings are modeled as Lean `String`s processed character by character;
JavaScript regex-based replacements are modeled by explicit scanning
functions with the same leftmost-match, resume-after-match semantics.
`undefined` results of reading absent object properties are modeled with
`Option`.  Unicode-specific behavior (`toLowerCase` outside ASCII, exotic
whitespace) is modeled on the character ranges that occur in this program.
-/

namespace SpecCreation

/-- Whitespace characters of the JavaScript `\s` class / `String.prototype.trim`,
restricted to the ASCII/Latin-1 characters relevant to this development. -/
def isJsSpace (c : Char) : Bool :=
  c = ' ' || c = '\t' || c = '\n' || c = '\r' ||
  c = Char.ofNat 11 || c = Char.ofNat 12 || c = Char.ofNat 160

/-- ASCII lowercasing, modeling `String.prototype.toLowerCase` on the ASCII range. -/
def lowerCh (c : Char) : Char :=
  if 65 ≤ c.toNat ∧ c.toNat ≤ 90 then Char.ofNat (c.toNat + 32) else c

/-- `isPrefixCh pat l` is true iff `pat` is a prefix of `l`. -/
def isPrefixCh : List Char → List Char → Bool
  | [], _ => true
  | _ :: _, [] => false
  | p :: ps, c :: cs => p = c && isPrefixCh ps cs

/-- `occursIn pat l`: `pat` occurs as a contiguous substring of `l`. -/
def occursIn (pat : List Char) : List Char → Bool
  | [] => isPrefixCh pat []
  | c :: cs => isPrefixCh pat (c :: cs) || occursIn pat cs

/-- First pattern of `pats` (in order) whose text is a prefix of `l`, returning its
replacement together with the rest of `l` after the matched text.  Models which
alternative of a JavaScript regex alternation fires at the current position
(the alternatives used in this file are never both applicable at one position). -/
def findRepl : List (List Char × List Char) → List Char → Option (List Char × List Char)
  | [], _ => none
  | (pat, rep) :: ps, l =>
    if isPrefixCh pat l then some (rep, l.drop pat.length) else findRepl ps l

/-- Fueled engine for `String.prototype.replace` with a `g`-flagged alternation of
literal patterns: scan left to right, replace each leftmost match, resume scanning
the original text right after the matched portion. -/
def replaceListF (pats : List (List Char × List Char)) : Nat → List Char → List Char
  | 0, l => l
  | _ + 1, [] => []
  | fuel + 1, c :: cs =>
    match findRepl pats (c :: cs) with
    | some (rep, rest) => rep ++ replaceListF pats fuel rest
    | none => c :: replaceListF pats fuel cs

def replaceList (pats : List (List Char × List Char)) (l : List Char) : List Char :=
  replaceListF pats l.length l

/-- Models `.replace(/\s+/g, " ")`: every maximal whitespace run becomes one space. -/
def collapseWs : List Char → List Char
  | [] => []
  | [c] => if isJsSpace c then [' '] else [c]
  | c :: d :: cs =>
    if isJsSpace c then
      if isJsSpace d then collapseWs (d :: cs)
      else ' ' :: collapseWs (d :: cs)
    else c :: collapseWs (d :: cs)

def trimLeftCh (l : List Char) : List Char := l.dropWhile isJsSpace

def trimRightCh : List Char → List Char
  | [] => []
  | c :: cs =>
    match trimRightCh cs with
    | [] => if isJsSpace c then [] else [c]
    | d :: ds => c :: d :: ds

def trimCh (l : List Char) : List Char := trimRightCh (trimLeftCh l)

/-- `String.prototype.trim`. -/
def jsTrim (s : String) : String := ⟨trimCh s.data⟩

/-- Patterns of `.replace(/sheet|plate|material/g, "")`. -/
def removePats : List (List Char × List Char) :=
  [("sheet".data, []), ("plate".data, []), ("material".data, [])]

/-- Pattern of `.replace(/perforation/g, "hole")`. -/
def perforationPat : List (List Char × List Char) := [("perforation".data, "hole".data)]

/-- Pattern of `.replace(/thk/g, "thickness")`. -/
def thkPat : List (List Char × List Char) := [("thk".data, "thickness".data)]

/-- Pattern of `.replace(/type/g, "shape")`. -/
def typePat : List (List Char × List Char) := [("type".data, "shape".data)]

/-- `normalizeSpecName` from `src/utils/api.ts` lines 3-12: lowercase, strip
`sheet`/`plate`/`material`, rewrite `perforation`→`hole`, `thk`→`thickness`,
`type`→`shape`, collapse whitespace runs to single spaces, trim. -/
def normalizeSpecName (s : String) : String :=
  ⟨trimCh (collapseWs (replaceList typePat (replaceList thkPat (replaceList perforationPat
      (replaceList removePats (s.data.map lowerCh))))))⟩

/-! ## Stage 1 / Stage 2 data model (`src/types`, as used by `src/utils/api.ts`)

Stage 1 specification records carry their display name in the field `spec_name`
(the JSON schema of `buildStage1Prompt` and every consumer in the repository read
`spec.spec_name`); ISQs of Stage 2 carry theirs in `name`. -/

structure Spec1 where
  spec_name : String
  options : List String
  input_type : String := "radio_button"
  affix_flag : String := "None"
  affix_presence_flag : String := "0"
  deriving DecidableEq, Repr

structure SpecGroup where
  specs : List Spec1
  deriving DecidableEq, Repr

structure FinalizedSpecs where
  finalized_primary_specs : SpecGroup
  finalized_secondary_specs : SpecGroup
  finalized_tertiary_specs : SpecGroup := ⟨[]⟩
  deriving DecidableEq, Repr

structure Mcat where
  category_name : String := ""
  mcat_id : String := ""
  finalized_specs : FinalizedSpecs
  deriving DecidableEq, Repr

structure SellerSpec where
  pmcat_id : String := ""
  pmcat_name : String := ""
  mcats : List Mcat
  deriving DecidableEq, Repr

structure Stage1Output where
  seller_specs : List SellerSpec
  deriving DecidableEq, Repr

structure ISQ where
  name : String
  options : List String
  deriving DecidableEq, Repr

/-- The `{config, keys, buyers?}` record passed to `selectStage3BuyerISQs`
(`buyers` is an optional property). -/
structure Stage2Sel where
  config : ISQ
  keys : List ISQ
  buyers : Option (List ISQ) := none
  deriving DecidableEq, Repr

/-- A flattened Stage 1 spec `{...s, tier, normName}` (api.ts lines 634-646).
The spread of a Stage 1 spec contributes `spec_name` (and options/flags) but no
`name` property, so reading `.name` from such a record yields `undefined`,
modeled here as a constantly-`none` field. -/
structure Flat1 where
  spec_name : String
  options : List String
  tier : String
  normName : String
  name : Option String := none
  deriving DecidableEq, Repr

/-- A flattened Stage 2 spec `{...s, normName}` (api.ts lines 649-653). -/
structure Flat2 where
  name : String
  options : List String
  normName : String
  deriving DecidableEq, Repr

/-- A buyer ISQ as actually constructed by the reconciler (api.ts lines 687-692):
`name` is read from a flattened Stage 1 record, hence possibly `undefined`. -/
structure BuyerISQ where
  name : Option String
  options : List String
  deriving DecidableEq, Repr

/-! ## Stage 3 reconciler (`selectStage3BuyerISQs`, api.ts lines 629-694) -/

/-- Step 1: flatten Stage 1 specs with tier info.  Only the primary and the
secondary groups of each MCAT are pushed, primaries first (lines 635-646). -/
def stage1All (stage1 : Stage1Output) : List Flat1 :=
  stage1.seller_specs.flatMap fun ss =>
    ss.mcats.flatMap fun mcat =>
      mcat.finalized_specs.finalized_primary_specs.specs.map (fun s =>
        { spec_name := s.spec_name, options := s.options, tier := "Primary",
          normName := normalizeSpecName s.spec_name }) ++
      mcat.finalized_specs.finalized_secondary_specs.specs.map (fun s =>
        { spec_name := s.spec_name, options := s.options, tier := "Secondary",
          normName := normalizeSpecName s.spec_name })

/-- Step 2: flatten Stage 2's config, keys and (optional) buyers (lines 649-653). -/
def stage2All (stage2 : Stage2Sel) : List Flat2 :=
  ([stage2.config] ++ stage2.keys ++ stage2.buyers.getD []).map fun s =>
    { name := s.name, options := s.options, normName := normalizeSpecName s.name }

/-- Step 3: a Stage 1 spec is common iff some Stage 2 spec shares its normalized
name (lines 656-658). -/
def commonSpecs (stage1 : Stage1Output) (stage2 : Stage2Sel) : List Flat1 :=
  (stage1All stage1).filter fun s1 =>
    (stage2All stage2).any fun s2 => s2.normName == s1.normName

/-- First-occurrence deduplication, modeling iteration order of `new Set(...)`. -/
def dedupFirstAux (seen : List String) : List String → List String
  | [] => []
  | x :: xs =>
    if x ∈ seen then dedupFirstAux seen xs else x :: dedupFirstAux (x :: seen) xs

def dedupFirst (l : List String) : List String := dedupFirstAux [] l

/-- Step 5 helper `getTopOptions` (lines 672-685): Stage 2 options first, then
Stage 1 options not already present, capped by `slice(0, 8 - options.length)`
(JavaScript `slice` clamps a negative end index from the end of the array),
then `[...new Set(options)].slice(0, 8)`. -/
def getTopOptions (s2All : List Flat2) (s1All : List Flat1) (normName : String) :
    List String :=
  let s2 := s2All.find? fun s => s.normName == normName
  let s1 := s1All.find? fun s => s.normName == normName
  let options : List String := match s2 with | some s => s.options | none => []
  let options : List String :=
    match s1 with
    | some s =>
      let filtered := s.options.filter fun o => ¬ options.contains o
      let needed : Int := 8 - options.length
      let endIdx : Nat :=
        if needed < 0 then (filtered.length + needed).toNat else needed.toNat
      options ++ filtered.take endIdx
    | none => options
  (dedupFirst options).take 8

/-- Step 4 first pick (lines 662-665): the first common spec with tier
`"Primary"`, else the first with tier `"Secondary"`. -/
def primaryPick (common : List Flat1) : Option Flat1 :=
  match common.find? fun s => s.tier == "Primary" with
  | some p => some p
  | none => common.find? fun s => s.tier == "Secondary"

/-- Step 4 second pick (lines 667-669): the first common spec whose normalized
name differs from the first pick's (`s.normName !== primarySpec?.normName`; when
there is no first pick, `primarySpec?.normName` is `undefined` and every string
differs from it). -/
def secondaryPick (common : List Flat1) (primarySpec : Option Flat1) :
    Option Flat1 :=
  common.find? fun s =>
    match primarySpec with
    | some p => s.normName != p.normName
    | none => true

/-- `selectStage3BuyerISQs` (api.ts lines 629-694).  The pushed records read
`.name` from flattened Stage 1 specs, which carry only `spec_name`, so the built
ISQs' names are `undefined` (`none`). -/
def selectStage3BuyerISQs (stage1 : Stage1Output) (stage2 : Stage2Sel) :
    List BuyerISQ :=
  let s1All := stage1All stage1
  let s2All := stage2All stage2
  let common := commonSpecs stage1 stage2
  let primarySpec := primaryPick common
  let secondarySpec := secondaryPick common primarySpec
  (match primarySpec with
   | some p => [{ name := p.name, options := getTopOptions s2All s1All p.normName }]
   | none => []) ++
  (match secondarySpec with
   | some s => [{ name := s.name, options := getTopOptions s2All s1All s.normName }]
   | none => [])

/-! ### Concrete reconciler scenarios -/

/-- The Stage 1 output of the spec's Grade/Thickness scenario: one MCAT with a
Primary spec `Grade` (options 304, 316) and a Secondary spec `Thickness`. -/
def gradeScenarioStage1 : Stage1Output :=
  ⟨[⟨"1", "Steel", [⟨"Steel Sheet", "11",
    ⟨⟨[{ spec_name := "Grade", options := ["304", "316"] }]⟩,
     ⟨[{ spec_name := "Thickness", options := ["2mm", "3mm"] }]⟩,
     ⟨[]⟩⟩⟩]⟩]⟩

/-- The Stage 2 output of the spec's Grade/Thickness scenario. -/
def gradeScenarioStage2 : Stage2Sel :=
  ⟨⟨"Grade", ["304", "316", "304L"]⟩, [⟨"Thickness", ["2mm"]⟩], none⟩

/-- Two MCATs: the first with common Primary `Grade` and common Secondary
`Thickness`, the second with a common Primary `Width`.  Two Primary common specs
exist, yet the reconciler pairs `Grade` with `Thickness`. -/
def twoMcatStage1 : Stage1Output :=
  ⟨[⟨"1", "Steel", [⟨"Steel Sheet", "11",
    ⟨⟨[{ spec_name := "Grade", options := ["304"] }]⟩,
     ⟨[{ spec_name := "Thickness", options := ["2mm"] }]⟩, ⟨[]⟩⟩⟩,
   ⟨"Steel Plate", "12",
    ⟨⟨[{ spec_name := "Width", options := ["5in"] }]⟩, ⟨[]⟩, ⟨[]⟩⟩⟩]⟩]⟩

def twoMcatStage2 : Stage2Sel :=
  ⟨⟨"Grade", ["304"]⟩, [⟨"Thickness", ["2mm"]⟩, ⟨"Width", ["5in"]⟩], none⟩

/-- Stage 1 option `B` also appears in Stage 2 (`both`-stage option), Stage 2
option `A` is Stage-2-only; the merged list keeps Stage 2's order `[A, B]`. -/
def orderScenarioStage1 : Stage1Output :=
  ⟨[⟨"1", "Steel", [⟨"Steel Sheet", "11",
    ⟨⟨[{ spec_name := "Grade", options := ["B"] }]⟩, ⟨[]⟩, ⟨[]⟩⟩⟩]⟩]⟩

def orderScenarioStage2 : Stage2Sel :=
  ⟨⟨"Grade", ["A", "B"]⟩, [], none⟩

/-- A Stage 1 output whose only spec is Tertiary (`Grade`), matching the Stage 2
config by normalized name. -/
def tertiaryScenarioStage1 : Stage1Output :=
  ⟨[⟨"1", "Steel", [⟨"Steel Sheet", "11",
    ⟨⟨[]⟩, ⟨[]⟩, ⟨[{ spec_name := "Grade", options := ["304"] }]⟩⟩⟩]⟩]⟩

def tertiaryScenarioStage2 : Stage2Sel :=
  ⟨⟨"Grade", ["304", "316"]⟩, [], none⟩

/-! ## Idempotence analysis of `normalizeSpecName` (claim C8)

A removal can create a fresh occurrence of a removed substring
(`"matsheeterial"` loses `sheet` and becomes `"material"`), so the function is
not idempotent in general.  It is idempotent at every input whose normalized
form contains none of the six rewritten substrings; the lemmas below establish
that each stage of the pipeline then fixes the normalized form. -/

/-- The six substrings rewritten by `normalizeSpecName`. -/
def normalizePats : List (List Char) :=
  ["sheet".data, "plate".data, "material".data, "perforation".data,
   "thk".data, "type".data]

/-- No two adjacent whitespace characters. -/
def noAdjSp : List Char → Bool
  | [] => true
  | [_] => true
  | c :: d :: cs => (!(isJsSpace c && isJsSpace d)) && noAdjSp (d :: cs)

/-! ## JSON values and `JSON.parse`

Dynamic JSON values, as produced by `JSON.parse` and consumed untyped by the
extraction code.  Numeric literals are modeled as integers: the repository
never branches on fractional numeric values, and the inputs exercised below
contain only small integers. -/

inductive JsonVal where
  | null
  | bool (b : Bool)
  | num (n : Int)
  | str (s : String)
  | arr (elems : List JsonVal)
  | obj (fields : List (String × JsonVal))

/-- JavaScript truthiness of a JSON value (objects and arrays are always
truthy, including empty ones). -/
def jsTruthy : JsonVal → Bool
  | .null => false
  | .bool b => b
  | .num n => n != 0
  | .str s => s != ""
  | .arr _ => true
  | .obj _ => true

/-- Property read `v[k]`: `undefined` (modeled as `null`) on non-objects and
missing keys; `JSON.parse` keeps the last duplicate key, so the last binding
wins. -/
def jGet : JsonVal → String → JsonVal
  | .obj fields, k =>
    match fields.reverse.find? fun f => f.1 == k with
    | some f => f.2
    | none => .null
  | _, _ => .null

/-- Observation helper: the string stored under key `k`, or `""`. -/
def jGetStr (v : JsonVal) (k : String) : String :=
  match jGet v k with
  | .str s => s
  | _ => ""

/-- `x || d` on JSON values. -/
def jsOr (v d : JsonVal) : JsonVal := if jsTruthy v then v else d

/-- Brace characters, named to keep them out of character literals. -/
def lbrace : Char := Char.ofNat 123

def rbrace : Char := Char.ofNat 125

def isJsonWs (c : Char) : Bool := c = ' ' || c = '\t' || c = '\n' || c = '\r'

def skipWsJ (l : List Char) : List Char := l.dropWhile isJsonWs

def hexVal (c : Char) : Option Nat :=
  if '0' ≤ c ∧ c ≤ '9' then some (c.toNat - 48)
  else if 'a' ≤ c ∧ c ≤ 'f' then some (c.toNat - 87)
  else if 'A' ≤ c ∧ c ≤ 'F' then some (c.toNat - 55)
  else none

/-- JSON string body after the opening quote: ordinary characters, the standard
escapes, and `\uXXXX` (as a raw code point; surrogate pairing is not modeled).
Raw control characters are rejected, as in `JSON.parse`. -/
def parseStringRestF : Nat → List Char → Option (String × List Char)
  | 0, _ => none
  | _ + 1, [] => none
  | fuel + 1, c :: cs =>
    if c = '"' then some ("", cs)
    else if c = '\\' then
      match cs with
      | [] => none
      | e :: cs2 =>
        let mapped : Option (Char × List Char) :=
          if e = '"' then some ('"', cs2)
          else if e = '\\' then some ('\\', cs2)
          else if e = '/' then some ('/', cs2)
          else if e = 'b' then some (Char.ofNat 8, cs2)
          else if e = 'f' then some (Char.ofNat 12, cs2)
          else if e = 'n' then some ('\n', cs2)
          else if e = 'r' then some ('\r', cs2)
          else if e = 't' then some ('\t', cs2)
          else if e = 'u' then
            match cs2 with
            | h1 :: h2 :: h3 :: h4 :: cs3 =>
              match hexVal h1, hexVal h2, hexVal h3, hexVal h4 with
              | some a, some b, some c', some d =>
                some (Char.ofNat (((a * 16 + b) * 16 + c') * 16 + d), cs3)
              | _, _, _, _ => none
            | _ => none
          else none
        match mapped with
        | some (ch, rest) =>
          match parseStringRestF fuel rest with
          | some (s, rest2) => some (⟨ch :: s.data⟩, rest2)
          | none => none
        | none => none
    else if c.toNat < 32 then none
    else
      match parseStringRestF fuel cs with
      | some (s, rest) => some (⟨c :: s.data⟩, rest)
      | none => none

def parseStringRest (l : List Char) : Option (String × List Char) :=
  parseStringRestF (l.length + 1) l

def isDigitCh (c : Char) : Bool := '0' ≤ c ∧ c ≤ '9'

def digitsToNat : List Char → Nat → Nat
  | [], acc => acc
  | c :: cs, acc => digitsToNat cs (acc * 10 + (c.toNat - 48))

/-- Integer literal (optional minus, no leading zeros).  A following `.`/`e`
(a fractional or exponent part) makes the whole parse fail instead of denoting
a float: this is the one declared restriction of the `JSON.parse` model. -/
def parseIntLit (l : List Char) : Option (JsonVal × List Char) :=
  let (neg, l') := match l with
    | '-' :: rest => (true, rest)
    | _ => (false, l)
  let ds := l'.takeWhile isDigitCh
  let rest := l'.drop ds.length
  if ds.length = 0 then none
  else if 1 < ds.length ∧ ds.take 1 = ['0'] then none
  else
    match rest with
    | c :: _ =>
      if c = '.' ∨ c = 'e' ∨ c = 'E' then none
      else some (.num (if neg then -(digitsToNat ds 0 : Int) else digitsToNat ds 0), rest)
    | [] => some (.num (if neg then -(digitsToNat ds 0 : Int) else digitsToNat ds 0), rest)

mutual

def parseValue : Nat → List Char → Option (JsonVal × List Char)
  | 0, _ => none
  | fuel + 1, l =>
    match skipWsJ l with
    | [] => none
    | c :: rest =>
      if c = lbrace then
        match skipWsJ rest with
        | d :: rest2 =>
          if d = rbrace then some (.obj [], rest2)
          else parseMembers fuel (skipWsJ rest) []
        | [] => none
      else if c = '[' then
        match skipWsJ rest with
        | ']' :: rest2 => some (.arr [], rest2)
        | _ :: _ => parseElems fuel (skipWsJ rest) []
        | [] => none
      else if c = '"' then
        match parseStringRest rest with
        | some (s, rest2) => some (.str s, rest2)
        | none => none
      else if isPrefixCh "true".data (c :: rest) then
        some (.bool true, (c :: rest).drop 4)
      else if isPrefixCh "false".data (c :: rest) then
        some (.bool false, (c :: rest).drop 5)
      else if isPrefixCh "null".data (c :: rest) then
        some (.null, (c :: rest).drop 4)
      else parseIntLit (c :: rest)

def parseMembers : Nat → List Char → List (String × JsonVal) →
    Option (JsonVal × List Char)
  | 0, _, _ => none
  | fuel + 1, l, acc =>
    match l with
    | '"' :: rest =>
      match parseStringRest rest with
      | some (k, rest2) =>
        match skipWsJ rest2 with
        | ':' :: rest3 =>
          match parseValue fuel rest3 with
          | some (v, rest4) =>
            match skipWsJ rest4 with
            | ',' :: rest5 => parseMembers fuel (skipWsJ rest5) (acc ++ [(k, v)])
            | d :: rest5 =>
              if d = rbrace then some (.obj (acc ++ [(k, v)]), rest5) else none
            | [] => none
          | none => none
        | _ => none
      | none => none
    | _ => none

def parseElems : Nat → List Char → List JsonVal → Option (JsonVal × List Char)
  | 0, _, _ => none
  | fuel + 1, l, acc =>
    match parseValue fuel l with
    | some (v, rest) =>
      match skipWsJ rest with
      | ',' :: rest2 => parseElems fuel rest2 (acc ++ [v])
      | ']' :: rest2 => some (.arr (acc ++ [v]), rest2)
      | _ => none
    | none => none

end

/-- `JSON.parse`: a complete parse of the whole string (only trailing
whitespace may remain), `none` on any syntax error. -/
def jsonParse (s : String) : Option JsonVal :=
  match parseValue (s.data.length + 1) s.data with
  | some (v, rest) => if (skipWsJ rest).isEmpty then some v else none
  | none => none

/-! ## The Gemini response shape and the Response Unwrapper
(`extractJSONFromGemini`, api.ts lines 48-97) -/

structure GPart where
  text : Option String := none
  json : Option JsonVal := none

structure GContent where
  parts : Option (List GPart) := none

structure GCandidate where
  content : Option GContent := none

structure GeminiResponse where
  candidates : List GCandidate

/-- The part loop (lines 62-70): accumulate each string `text` followed by a
newline; `if (part.json) return part.json` short-circuits on a truthy `json`
field.  Returns either the early JSON or the accumulated raw text. -/
def partsLoop : List GPart → String → JsonVal ⊕ String
  | [], acc => .inr acc
  | p :: ps, acc =>
    let acc := match p.text with
      | some t => acc ++ t ++ "\n"
      | none => acc
    match p.json with
    | some j => if jsTruthy j then .inl j else partsLoop ps acc
    | none => partsLoop ps acc

/-- Case-insensitive prefix test (for the `i`-flagged fence pattern). -/
def isPrefixCI : List Char → List Char → Bool
  | [], _ => true
  | _ :: _, [] => false
  | p :: ps, c :: cs => (lowerCh p == lowerCh c) && isPrefixCI ps cs

/-- Fueled engine for a case-insensitive global removal of one literal pattern. -/
def removeAllCI (pat : List Char) : Nat → List Char → List Char
  | 0, l => l
  | _ + 1, [] => []
  | fuel + 1, c :: cs =>
    if isPrefixCI pat (c :: cs) then removeAllCI pat fuel ((c :: cs).drop pat.length)
    else c :: removeAllCI pat fuel cs

def backtick : Char := Char.ofNat 96

/-- The three-backtick fence. -/
def fencePat : List Char := [backtick, backtick, backtick]

/-- The fence with `json` language tag. -/
def fenceJsonPat : List Char := fencePat ++ "json".data

/-- Suffix of `l` starting at the first opening brace. -/
def firstBraceSplit : List Char → Option (List Char)
  | [] => none
  | c :: cs => if c = lbrace then some (c :: cs) else firstBraceSplit cs

/-- Prefix of `l` ending at the last closing brace. -/
def cutAfterLastBrace : List Char → Option (List Char)
  | [] => none
  | c :: cs =>
    match cutAfterLastBrace cs with
    | some r => some (c :: r)
    | none => if c = rbrace then some [c] else none

/-- The match of the greedy regex from the first opening brace to the last
closing brace, when one exists (line 82). -/
def braceMatch (l : List Char) : Option (List Char) :=
  match firstBraceSplit l with
  | none => none
  | some suffix => cutAfterLastBrace suffix

/-- `.replace(/,(\s*[\]}])/g, "$1")` (line 85): drop a comma followed by
optional whitespace and a closing bracket, keeping the whitespace and bracket;
scanning resumes after the bracket. -/
def removeTrailingCommasF : Nat → List Char → List Char
  | 0, l => l
  | _ + 1, [] => []
  | fuel + 1, c :: cs =>
    if c = ',' then
      let ws := cs.takeWhile isJsSpace
      let rest := cs.drop ws.length
      match rest with
      | d :: ds =>
        if d = rbrace ∨ d = ']' then ws ++ d :: removeTrailingCommasF fuel ds
        else c :: removeTrailingCommasF fuel cs
      | [] => c :: removeTrailingCommasF fuel cs
    else c :: removeTrailingCommasF fuel cs

def removeTrailingCommas (l : List Char) : List Char :=
  removeTrailingCommasF l.length l

/-- `extractJSONFromGemini` (api.ts lines 48-97, the retained variant that
never throws): `null` without candidates; parts default to `[]` when `content`
is absent (and iterating a partless `content` object throws, caught to `null`);
a truthy structured `json` part returns directly; otherwise strip fences, trim,
cut to the outermost braces, drop trailing commas and `JSON.parse`, with any
parse failure yielding `null`. -/
def extractJSONFromGemini (response : GeminiResponse) : Option JsonVal :=
  match response.candidates with
  | [] => none
  | cand :: _ =>
    match cand.content with
    | none => none
    | some ct =>
      match ct.parts with
      | none => none
      | some parts =>
        match partsLoop parts "" with
        | .inl j => some j
        | .inr rawText =>
          if jsTrim rawText = "" then none
          else
            let cleaned := removeAllCI fenceJsonPat rawText.data.length rawText.data
            let cleaned := replaceList [(fencePat, [])] cleaned
            let cleaned := trimCh cleaned
            let cleaned := match braceMatch cleaned with
              | some m => m
              | none => cleaned
            let cleaned := removeTrailingCommas cleaned
            jsonParse ⟨cleaned⟩

/-- `extractRawText` (api.ts lines 226-243): the concatenated string parts of
the first candidate (`parts || []`, no fallback to `content` here), trimmed. -/
def extractRawText (response : GeminiResponse) : String :=
  match response.candidates with
  | [] => ""
  | cand :: _ =>
    let parts := match cand.content with
      | some ct => ct.parts.getD []
      | none => []
    jsTrim (textConcat parts "")
where
  textConcat : List GPart → String → String
    | [], acc => acc
    | p :: ps, acc =>
      match p.text with
      | some t => textConcat ps (acc ++ t ++ "\n")
      | none => textConcat ps acc

/-! ## Stage 2 text fallback (`parseStage2FromText`, api.ts lines 245-307) -/

/-- The 17 alternatives of the `specPatterns` regex (line 255), in pattern
order; no two can match at the same position (their first two letters differ),
so first-match lookup coincides with the regex's ordered alternation. -/
def specAltWords : List (List Char) :=
  ["size".data, "material".data, "grade".data, "thickness".data, "type".data,
   "shape".data, "length".data, "width".data, "color".data, "finish".data,
   "weight".data, "capacity".data, "brand".data, "quality".data, "model".data,
   "variant".data, "design".data]

/-- The `[:\-\s]` separator class. -/
def isSepCh (c : Char) : Bool := c = ':' || c = '-' || isJsSpace c

/-- The `[^:\n]` class. -/
def isNotColonNl (c : Char) : Bool := !(c = ':' || c = '\n')

def isNotNl (c : Char) : Bool := c != '\n'

def findAltCI : List (List Char) → List Char → Option (List Char)
  | [], _ => none
  | w :: ws, l => if isPrefixCI w l then some w else findAltCI ws l

/-- Backtracking of the greedy `[:\-\s]+` separator: try the longest separator
run first, then give characters back one at a time (each given-back separator
character is not a newline, so it can start the `([^\n]+)` capture). -/
def tryG2Start (rest : List Char) : Nat → Option (Nat × List Char)
  | 0 => none
  | v + 1 =>
    match rest.drop (v + 1) with
    | c :: after =>
      if c = '\n' then tryG2Start rest v
      else some (v + 1, (c :: after).takeWhile isNotNl)
    | [] => tryG2Start rest v

/-- One attempt of the separator and capture groups after a middle of exactly
`t` characters. -/
def tryMidAt (g1 afterName : List Char) (t : Nat) :
    Option (List Char × List Char × List Char) :=
  let rest := afterName.drop t
  let sepRun := rest.takeWhile isSepCh
  match tryG2Start rest sepRun.length with
  | some (v, g2) => some (g1, g2, (rest.drop v).drop g2.length)
  | none => none

/-- Backtracking of the greedy `[^:\n]*` middle: try the longest middle first
(`t` characters after the matched alternative), then shrink. -/
def tryMid (g1 afterName : List Char) : Nat → Option (List Char × List Char × List Char)
  | 0 => tryMidAt g1 afterName 0
  | t + 1 =>
    match tryMidAt g1 afterName (t + 1) with
    | some r => some r
    | none => tryMid g1 afterName t

/-- One attempted match of `specPatterns` anchored at the current position:
group 1 is the alternative as it appears in the input, group 2 the captured
value text; also returns the rest of the input after the whole match. -/
def matchSpecAt (l : List Char) : Option (List Char × List Char × List Char) :=
  match findAltCI specAltWords l with
  | none => none
  | some w =>
    let g1 := l.take w.length
    let afterName := l.drop w.length
    tryMid g1 afterName (afterName.takeWhile isNotColonNl).length

/-- `text.matchAll(specPatterns)`: scan left to right, resuming after each
match.  Every match consumes at least one character, so the input length
bounds the number of steps. -/
def specMatchAllF : Nat → List Char → List (List Char × List Char)
  | 0, _ => []
  | _ + 1, [] => []
  | fuel + 1, c :: cs =>
    match matchSpecAt (c :: cs) with
    | some (g1, g2, rest) => (g1, g2) :: specMatchAllF fuel rest
    | none => specMatchAllF fuel cs

def specMatchAll (l : List Char) : List (List Char × List Char) :=
  specMatchAllF l.length l

def isWordCh (c : Char) : Bool :=
  ('a' ≤ c ∧ c ≤ 'z') || ('A' ≤ c ∧ c ≤ 'Z') || ('0' ≤ c ∧ c ≤ '9') || c = '_'

/-- The value splitter (line 265 uses `/,|;|\/|\band\b/`; line 290 uses
`/,|;|\//` — `useAnd` selects between them).  `\band\b` requires word
boundaries on both sides and is case-sensitive. -/
def splitValsGo (useAnd : Bool) : Nat → Option Char → List Char → List Char →
    List (List Char)
  | 0, _, acc, rest => [acc.reverse ++ rest]
  | _ + 1, _, acc, [] => [acc.reverse]
  | fuel + 1, prev, acc, c :: cs =>
    if c = ',' ∨ c = ';' ∨ c = '/' then
      acc.reverse :: splitValsGo useAnd fuel (some c) [] cs
    else if useAnd && isPrefixCh "and".data (c :: cs) &&
        (match prev with | some p => !(isWordCh p) | none => true) &&
        (match (c :: cs).drop 3 with | d :: _ => !(isWordCh d) | [] => true) then
      acc.reverse :: splitValsGo useAnd fuel (some 'd') [] ((c :: cs).drop 3)
    else
      splitValsGo useAnd fuel (some c) (c :: acc) cs

def splitVals (useAnd : Bool) (l : List Char) : List (List Char) :=
  splitValsGo useAnd l.length none [] l

/-- `text.split("\n")` (note `"".split("\n")` is `[""]`). -/
def splitOnNlGo : List Char → List Char → List String
  | [], acc => [⟨acc.reverse⟩]
  | c :: cs, acc =>
    if c = '\n' then (⟨acc.reverse⟩ : String) :: splitOnNlGo cs []
    else splitOnNlGo cs (c :: acc)

def splitOnNl (s : String) : List String := splitOnNlGo s.data []

def isLetterCh (c : Char) : Bool := ('a' ≤ c ∧ c ≤ 'z') || ('A' ≤ c ∧ c ≤ 'Z')

/-- `true` iff a match may end here (the final `\b`): end of input or a
non-word character. -/
def boundaryOk : List Char → Bool
  | [] => true
  | c :: _ => !(isWordCh c)

/-- Greedy extensions `(?:\s+[a-z]{3,})*` of the word-sequence regex: each step
returns the cumulative matched text and the rest after it. -/
def segLoop : Nat → List Char → List Char → List (List Char × List Char)
  | 0, _, _ => []
  | fuel + 1, acc, l =>
    let ws := l.takeWhile isJsSpace
    let letters := (l.drop ws.length).takeWhile isLetterCh
    if ws.length = 0 ∨ letters.length < 3 then []
    else
      let acc2 := acc ++ ws ++ letters
      let rest2 := (l.drop ws.length).drop letters.length
      (acc2, rest2) :: segLoop fuel acc2 rest2

/-- One match of `/\b[a-z]{3,}(?:\s+[a-z]{3,})*\b/i` anchored at the head of
`l` (the caller checks the boundary before `l`): with maximal letter runs, the
final `\b` can only fail when the next character is a word character, in which
case the regex backtracks by whole `(?:\s+[a-z]{3,})` groups. -/
def wordSeqAt (l : List Char) : Option (List Char × List Char) :=
  let run := l.takeWhile isLetterCh
  if run.length < 3 then none
  else
    let rest0 := l.drop run.length
    let chain := (run, rest0) :: segLoop rest0.length run rest0
    match chain.reverse.dropWhile (fun pr => !(boundaryOk pr.2)) with
    | [] => none
    | pr :: _ => some pr

/-- `text.match(/\b[a-z]{3,}(?:\s+[a-z]{3,})*\b/gi)` (line 297). -/
def wordSeqScanF : Nat → Option Char → List Char → List String
  | 0, _, _ => []
  | _ + 1, _, [] => []
  | fuel + 1, prev, c :: cs =>
    let boundaryBefore := match prev with
      | some p => !(isWordCh p)
      | none => true
    if boundaryBefore then
      match wordSeqAt (c :: cs) with
      | some (m, rest) => (⟨m⟩ : String) :: wordSeqScanF fuel m.getLast? rest
      | none => wordSeqScanF fuel (some c) cs
    else wordSeqScanF fuel (some c) cs

def wordSeqMatches (l : List Char) : List String := wordSeqScanF l.length none l

/-- The three-part Stage 2 ISQ record `{config, keys, buyers}`. -/
structure Stage2ISQs where
  config : ISQ
  keys : List ISQ
  buyers : List ISQ
  deriving DecidableEq, Repr

/-- `generateFallbackStage2` (api.ts lines 309-315). -/
def generateFallbackStage2 : Stage2ISQs :=
  { config := { name := "Unknown", options := [] }, keys := [], buyers := [] }

/-- State of the `forEach` over the first ten matches (lines 258-284). -/
structure TextParseState where
  configName : String
  configOptions : List String
  configSet : Bool
  keys : List ISQ
  seen : List String

/-- The body of the `forEach` (lines 261-284): trim name and value text, split
and bound the values, skip empty value lists and already-seen normalized names,
set the config on the first name with at least two values, otherwise collect up
to three keys. -/
def processMatch (st : TextParseState) (m : List Char × List Char) :
    TextParseState :=
  let name := jsTrim ⟨m.1⟩
  let valuesStr := jsTrim ⟨m.2⟩
  let values := (((splitVals true valuesStr.data).map fun v => jsTrim ⟨v⟩).filter
    fun v => 0 < v.length ∧ v.length < 50).take 10
  if values.length = 0 then st
  else
    let normalizedName := normalizeSpecName name
    if st.seen.contains normalizedName then st
    else
      let st := { st with seen := st.seen ++ [normalizedName] }
      if !st.configSet ∧ 2 ≤ values.length then
        { st with configName := name, configOptions := values, configSet := true }
      else if st.keys.length < 3 then
        { st with keys := st.keys ++ [{ name := name, options := values }] }
      else st

/-- `parseStage2FromText` (api.ts lines 245-307). -/
def parseStage2FromText (text : String) : Option Stage2ISQs :=
  let lines := (splitOnNl text).filter fun line => 0 < (jsTrim line).length
  if lines.length = 0 then none
  else
    let ms := specMatchAll text.data
    let st := (ms.take 10).foldl processMatch
      { configName := "", configOptions := [], configSet := false,
        keys := [], seen := [] }
    let (cname, copts) :=
      if !st.configSet ∧ 0 < ms.length then
        match ms with
        | m :: _ =>
          (jsTrim ⟨m.1⟩,
           (((splitVals false m.2).map fun v => jsTrim ⟨v⟩).filter
             fun v => 0 < v.length ∧ v.length < 50).take 5)
        | [] => (st.configName, st.configOptions)
      else (st.configName, st.configOptions)
    let (cname, copts) :=
      if cname = "" ∨ copts.length = 0 then
        match wordSeqMatches text.data with
        | w :: ws => (w, (w :: ws).take 5)
        | [] => (cname, copts)
      else (cname, copts)
    if cname = "" then none
    else some { config := { name := cname, options := copts }, keys := st.keys,
                buyers := [] }

/-! ## The Stage 2 extraction decision (`extractISQWithGemini`,
api.ts lines 192-212) -/

/-- The untyped result record: the accepted branch passes the decoded JSON
through unconverted, so the fields are dynamic values. -/
structure Stage2Raw where
  config : JsonVal
  keys : JsonVal
  buyers : JsonVal

def isqToJson (i : ISQ) : JsonVal :=
  .obj [("name", .str i.name), ("options", .arr (i.options.map .str))]

def stage2ToRaw (r : Stage2ISQs) : Stage2Raw :=
  { config := isqToJson r.config,
    keys := .arr (r.keys.map isqToJson),
    buyers := .arr (r.buyers.map isqToJson) }

/-- The decision logic of `extractISQWithGemini` applied to a decoded response
(lines 192-212): accept the parsed JSON iff `parsed && parsed.config &&
parsed.config.name` is truthy (with `|| []` defaults for keys and buyers);
otherwise, when the raw text is nonempty, accept a text-parse whose config name
is truthy; otherwise `generateFallbackStage2()`.  The catch path (lines
213-223) rethrows only quota errors and also falls back to
`generateFallbackStage2()` otherwise. -/
def extractISQFromResponse (data : GeminiResponse) : Stage2Raw :=
  let parsed := extractJSONFromGemini data
  let accepted : Option Stage2Raw :=
    match parsed with
    | some p =>
      if jsTruthy p && jsTruthy (jGet p "config") &&
          jsTruthy (jGet (jGet p "config") "name") then
        some { config := jGet p "config",
               keys := jsOr (jGet p "keys") (.arr []),
               buyers := jsOr (jGet p "buyers") (.arr []) }
      else none
    | none => none
  match accepted with
  | some r => r
  | none =>
    let textContent := extractRawText data
    if textContent ≠ "" then
      match parseStage2FromText textContent with
      | some fp =>
        if fp.config.name ≠ "" then stage2ToRaw fp
        else stage2ToRaw generateFallbackStage2
      | none => stage2ToRaw generateFallbackStage2
    else stage2ToRaw generateFallbackStage2

/-! ## Stage 1 generation (`generateStage1WithGemini`, api.ts lines 103-143) -/

/-- `generateFallbackStage1` (lines 145-149): the `{seller_specs: []}` value,
as the dynamic JSON the function's callers receive. -/
def generateFallbackStage1 : JsonVal := .obj [("seller_specs", .arr [])]

/-- `String.prototype.includes`. -/
def occursStr (pat s : String) : Bool := occursIn pat.data s.data

/-- `generateStage1WithGemini` (lines 103-143) as a function of the configured
key (`(VITE_STAGE1_API_KEY || "").trim()`) and of the one effectful step's
outcome — the awaited `fetchWithRetry`/`response.json()` either yields a
response body or throws a message.  A missing key throws; a thrown message
containing `429` or `quota` is converted to the quota error; any other throw
and any falsy decode yield `generateFallbackStage1()`
(`extractJSONFromGemini(data) || generateFallbackStage1()`). -/
def generateStage1WithGemini (envKey : Option String)
    (outcome : Except String GeminiResponse) : Except String JsonVal :=
  let key := jsTrim (envKey.getD "")
  if key = "" then
    .error "Stage 1 API key is not configured. Please add VITE_STAGE1_API_KEY to your .env file."
  else
    match outcome with
    | .ok data =>
      match extractJSONFromGemini data with
      | some j => if jsTruthy j then .ok j else .ok generateFallbackStage1
      | none => .ok generateFallbackStage1
    | .error msg =>
      if occursStr "429" msg || occursStr "quota" msg then
        .error "Stage 1 API key quota exhausted. Please check your API limits."
      else .ok generateFallbackStage1

/-! ### Concrete responses -/

/-- A response with no candidates (the shape every unreachable-model scenario
decodes to). -/
def emptyResponse : GeminiResponse := ⟨[]⟩

/-- A response whose text holds no JSON at all. -/
def parseFailResponse : GeminiResponse :=
  ⟨[⟨some ⟨some [⟨some "no json here", none⟩]⟩⟩]⟩

/-- The spec's fenced example: prose, a markdown fence and a trailing comma
around the payload `{"a":1,}`. -/
def fencedResponse : GeminiResponse :=
  ⟨[⟨some ⟨some [⟨some "Sure! Here\x27s the JSON: ```json\n\x7b\"a\":1,\x7d\n```",
    none⟩]⟩⟩]⟩

/-- The invalid-under-`isValidISQSet` payload of the spec's example: one config
option, a single key, and a key name that normalizes identically to the config
name. -/
def invalidISQParsed : JsonVal :=
  .obj [("config", .obj [("name", .str "Material"), ("options", .arr [.str "a"])]),
        ("keys", .arr [.obj [("name", .str "material "),
                             ("options", .arr [.str "a", .str "b"])]])]

/-- A response carrying `invalidISQParsed` as a structured `json` part. -/
def invalidISQResponse : GeminiResponse :=
  ⟨[⟨some ⟨some [⟨none, some invalidISQParsed⟩]⟩⟩]⟩

/-! ## Theorems -/

example : normalizeSpecName "Thk" = "thickness" := by decide
example : normalizeSpecName " THK " = "thickness" := by decide
example : normalizeSpecName "Thickness" = "thickness" := by decide
example : normalizeSpecName "matsheeterial" = "material" := by decide
example : normalizeSpecName "material" = "" := by decide
example : normalizeSpecName "Grade" = "grade" := by decide
example : normalizeSpecName "Perforation Type" = "hole shape" := by decide

example :
    selectStage3BuyerISQs gradeScenarioStage1 gradeScenarioStage2 =
      [⟨none, ["304", "316", "304L"]⟩, ⟨none, ["2mm", "3mm"]⟩] := by decide

example :
    (selectStage3BuyerISQs twoMcatStage1 twoMcatStage2).map BuyerISQ.options =
      [["304"], ["2mm"]] := by decide

example :
    selectStage3BuyerISQs orderScenarioStage1 orderScenarioStage2 =
      [⟨none, ["A", "B"]⟩] := by decide

example :
    selectStage3BuyerISQs tertiaryScenarioStage1 tertiaryScenarioStage2 = [] := by
  decide

/-! ## Lemmas about the reconciler -/

theorem mem_stage1All_tier {st : Stage1Output} {s : Flat1} (h : s ∈ stage1All st) :
    s.tier = "Primary" ∨ s.tier = "Secondary" := by
  simp only [stage1All, List.mem_flatMap, List.mem_append, List.mem_map] at h
  obtain ⟨ss, -, mcat, -, h | h⟩ := h <;> obtain ⟨sp, -, rfl⟩ := h
  · exact Or.inl rfl
  · exact Or.inr rfl

theorem mem_commonSpecs {st1 : Stage1Output} {st2 : Stage2Sel} {s : Flat1} :
    s ∈ commonSpecs st1 st2 ↔
      s ∈ stage1All st1 ∧ ∃ t ∈ stage2All st2, t.normName = s.normName := by
  simp [commonSpecs, List.mem_filter, List.any_eq_true, beq_iff_eq]

theorem primaryPick_isSome {common : List Flat1} (hne : common ≠ [])
    (htier : ∀ s ∈ common, s.tier = "Primary" ∨ s.tier = "Secondary") :
    ∃ p, primaryPick common = some p := by
  cases hP : common.find? fun s => s.tier == "Primary" with
  | some p => exact ⟨p, by simp [primaryPick, hP]⟩
  | none =>
    obtain ⟨a, ha⟩ := List.exists_mem_of_ne_nil common hne
    have hsec : a.tier = "Secondary" := by
      rcases htier a ha with h | h
      · exact absurd (by simp [h]) (List.find?_eq_none.mp hP a ha)
      · exact h
    have hsome : (common.find? fun s => s.tier == "Secondary").isSome :=
      List.find?_isSome.mpr ⟨a, ha, by simp [hsec]⟩
    obtain ⟨p, hp⟩ := Option.isSome_iff_exists.mp hsome
    exact ⟨p, by simp [primaryPick, hP, hp]⟩

theorem secondaryPick_isSome {common : List Flat1} {p : Flat1}
    (hex : ∃ a ∈ common, ∃ b ∈ common, a.normName ≠ b.normName) :
    ∃ s, secondaryPick common (some p) = some s := by
  obtain ⟨a, ha, b, hb, hab⟩ := hex
  have hx : ∃ x ∈ common, x.normName ≠ p.normName := by
    by_cases h : a.normName = p.normName
    · exact ⟨b, hb, fun hh => hab (h.trans hh.symm)⟩
    · exact ⟨a, ha, h⟩
  obtain ⟨x, hxm, hxp⟩ := hx
  have hsome : (common.find? fun s =>
      match (some p : Option Flat1) with
      | some q => s.normName != q.normName
      | none => true).isSome :=
    List.find?_isSome.mpr ⟨x, hxm, by simp [bne_iff_ne, hxp]⟩
  obtain ⟨s, hs⟩ := Option.isSome_iff_exists.mp hsome
  exact ⟨s, by simpa [secondaryPick] using hs⟩

theorem dedupFirstAux_spec : ∀ (l : List String) (seen : List String),
    (dedupFirstAux seen l).Nodup ∧ ∀ x ∈ dedupFirstAux seen l, x ∉ seen
  | [], seen => by simp [dedupFirstAux]
  | x :: xs, seen => by
    by_cases hx : x ∈ seen
    · simpa [dedupFirstAux, hx] using dedupFirstAux_spec xs seen
    · obtain ⟨h1, h2⟩ := dedupFirstAux_spec xs (x :: seen)
      refine ⟨?_, ?_⟩
      · simp only [dedupFirstAux, if_neg hx, List.nodup_cons]
        exact ⟨fun hmem => (h2 x hmem) (by simp), h1⟩
      · intro y hy
        simp only [dedupFirstAux, if_neg hx, List.mem_cons] at hy
        rcases hy with rfl | hy
        · exact hx
        · exact fun hys => h2 y hy (by simp [hys])

theorem getTopOptions_bound (s2All : List Flat2) (s1All : List Flat1) (n : String) :
    (getTopOptions s2All s1All n).length ≤ 8 ∧ (getTopOptions s2All s1All n).Nodup := by
  unfold getTopOptions
  refine ⟨by simp [List.length_take], ?_⟩
  exact (dedupFirstAux_spec _ []).1.sublist (List.take_sublist _ _)

theorem buyerISQ_options_of_mem {st1 : Stage1Output} {st2 : Stage2Sel} {q : BuyerISQ}
    (hq : q ∈ selectStage3BuyerISQs st1 st2) :
    ∃ n, q.options = getTopOptions (stage2All st2) (stage1All st1) n := by
  simp only [selectStage3BuyerISQs] at hq
  cases hP : primaryPick (commonSpecs st1 st2) <;> rw [hP] at hq
  · cases hS : secondaryPick (commonSpecs st1 st2) none <;> rw [hS] at hq
    · simp at hq
    · simp only [List.nil_append, List.mem_singleton] at hq
      exact ⟨_, by rw [hq]⟩
  · rename_i p
    cases hS : secondaryPick (commonSpecs st1 st2) (some p) <;> rw [hS] at hq
    · simp only [List.append_nil, List.mem_singleton] at hq
      exact ⟨_, by rw [hq]⟩
    · rcases List.mem_append.mp hq with h | h <;>
        simp only [List.mem_singleton] at h <;> exact ⟨_, by rw [h]⟩

/-! ## Claims about the Stage 3 reconciler -/

/-- C1 (counterexample): at the spec's own Grade/Thickness scenario the
reconciler does not return ISQs named `Grade` and `Thickness`: both returned
`name` fields are `undefined` (the code reads `.name` from flattened Stage 1
records that only carry `spec_name`).  Moreover, with a second MCAT contributing
another common Primary spec (`Width`, a member of the common pool as shown), the
second selection is the Secondary `Thickness` spec (options `["2mm"]`) rather
than the second Primary, so the claimed "prefer two Primary" ranking fails too. -/
theorem claim_C1_counterexample :
    (selectStage3BuyerISQs gradeScenarioStage1 gradeScenarioStage2).map
        BuyerISQ.name ≠ [some "Grade", some "Thickness"] ∧
      (⟨"Width", ["5in"], "Primary", "width", none⟩ : Flat1) ∈
        commonSpecs twoMcatStage1 twoMcatStage2 ∧
      (selectStage3BuyerISQs twoMcatStage1 twoMcatStage2).map BuyerISQ.options =
        [["304"], ["2mm"]] :=
  ⟨by decide, by decide, by decide⟩

/-- C1 (amended): in the Grade/Thickness scenario the reconciler returns exactly
two buyer ISQs, the Grade-derived one first with merged options
`["304","316","304L"]` and the Thickness-derived one second, both with
`undefined` names; the selection takes the first common Primary spec (else the
first common Secondary), then the first common spec with a different normalized
name in flattening order. -/
theorem claim_C1_amended :
    selectStage3BuyerISQs gradeScenarioStage1 gradeScenarioStage2 =
      [⟨none, ["304", "316", "304L"]⟩, ⟨none, ["2mm", "3mm"]⟩] := by decide

/-- C2 (counterexample): with Stage 1 options `["B"]` and Stage 2 options
`["A","B"]` for the common spec `Grade`, the merged list is Stage 2's order
`["A","B"]`, not `["B","A"]` as the claimed both-stages-first priority requires
(`B` appears in both stages, `A` only in Stage 2). -/
theorem claim_C2_counterexample :
    selectStage3BuyerISQs orderScenarioStage1 orderScenarioStage2 =
        [⟨none, ["A", "B"]⟩] ∧
      (selectStage3BuyerISQs orderScenarioStage1 orderScenarioStage2).map
        BuyerISQ.options ≠ [["B", "A"]] :=
  ⟨by decide, by decide⟩

/-- C2 (amended): every merged option list returned by the reconciler is
Stage 2's options in their original order followed by Stage-1-only options,
deduplicated (first occurrences kept) and truncated to 8; in particular it has
length at most 8 and contains no duplicate values. -/
theorem claim_C2_amended (st1 : Stage1Output) (st2 : Stage2Sel) (q : BuyerISQ)
    (hq : q ∈ selectStage3BuyerISQs st1 st2) :
    q.options.length ≤ 8 ∧ q.options.Nodup := by
  obtain ⟨n, hn⟩ := buyerISQ_options_of_mem hq
  rw [hn]
  exact getTopOptions_bound _ _ n

theorem claim_C2_amended_witness :
    (⟨none, ["304", "316", "304L"]⟩ : BuyerISQ) ∈
        selectStage3BuyerISQs gradeScenarioStage1 gradeScenarioStage2 ∧
      ((["304", "316", "304L"] : List String).length ≤ 8 ∧
        (["304", "316", "304L"] : List String).Nodup) :=
  ⟨by decide,
   claim_C2_amended gradeScenarioStage1 gradeScenarioStage2
     ⟨none, ["304", "316", "304L"]⟩ (by decide)⟩

/-- C3 (counterexample): a Tertiary Stage 1 spec `Grade` whose normalized name
matches the Stage 2 config does not participate: it is never flattened
(`stage1All` is empty) and the reconciler returns no buyer ISQs. -/
theorem claim_C3_counterexample :
    selectStage3BuyerISQs tertiaryScenarioStage1 tertiaryScenarioStage2 = [] ∧
      stage1All tertiaryScenarioStage1 = [] :=
  ⟨by decide, by decide⟩

/-- C3 (amended): the reconciler flattens exactly the Primary and Secondary
Stage 1 specs across all PMCATs/MCATs (never Tertiary ones), and a flattened
Stage 1 spec is common iff some Stage 2 spec shares its normalized name. -/
theorem claim_C3_amended (st1 : Stage1Output) (st2 : Stage2Sel) :
    (∀ s, s ∈ commonSpecs st1 st2 ↔
        s ∈ stage1All st1 ∧ ∃ t ∈ stage2All st2, t.normName = s.normName) ∧
      ∀ s ∈ stage1All st1, s.tier = "Primary" ∨ s.tier = "Secondary" :=
  ⟨fun _ => mem_commonSpecs, fun _ h => mem_stage1All_tier h⟩

theorem claim_C3_amended_witness :
    (⟨"Grade", ["304", "316"], "Primary", "grade", none⟩ : Flat1) ∈
      commonSpecs gradeScenarioStage1 gradeScenarioStage2 :=
  ((claim_C3_amended gradeScenarioStage1 gradeScenarioStage2).1 _).mpr
    ⟨by decide, ⟨"Grade", ["304", "316", "304L"], "grade"⟩, by decide, by decide⟩

/-- C4: the reconciler returns at most 2 buyer ISQs, and whenever the common
pool holds two specs with distinct normalized names (two qualifying common
specs) it returns exactly 2. -/
theorem claim_C4 (st1 : Stage1Output) (st2 : Stage2Sel) :
    (selectStage3BuyerISQs st1 st2).length ≤ 2 ∧
      ((∃ a ∈ commonSpecs st1 st2, ∃ b ∈ commonSpecs st1 st2,
          a.normName ≠ b.normName) →
        (selectStage3BuyerISQs st1 st2).length = 2) := by
  constructor
  · simp only [selectStage3BuyerISQs]
    cases hP : primaryPick (commonSpecs st1 st2)
    · cases hS : secondaryPick (commonSpecs st1 st2) none <;> simp
    · rename_i p
      cases hS : secondaryPick (commonSpecs st1 st2) (some p) <;> simp
  · intro hex
    have hne : commonSpecs st1 st2 ≠ [] := by
      obtain ⟨a, ha, -⟩ := hex
      exact List.ne_nil_of_mem ha
    have htier : ∀ s ∈ commonSpecs st1 st2,
        s.tier = "Primary" ∨ s.tier = "Secondary" :=
      fun s hs => mem_stage1All_tier (mem_commonSpecs.mp hs).1
    obtain ⟨p, hp⟩ := primaryPick_isSome hne htier
    obtain ⟨s, hs⟩ := secondaryPick_isSome (p := p) hex
    simp [selectStage3BuyerISQs, hp, hs]

theorem claim_C4_witness :
    (selectStage3BuyerISQs gradeScenarioStage1 gradeScenarioStage2).length = 2 :=
  (claim_C4 gradeScenarioStage1 gradeScenarioStage2).2
    ⟨⟨"Grade", ["304", "316"], "Primary", "grade", none⟩, by decide,
     ⟨"Thickness", ["2mm", "3mm"], "Secondary", "thickness", none⟩, by decide,
     by decide⟩

/-- C10 (code evaluated at the failing input): in the Grade/Thickness scenario
both returned buyer ISQs carry an `undefined` name (the code reads `.name` from
records carrying only `spec_name`, contradicting the function's declared `ISQ[]`
return type), so their normalized names are not two distinct strings. -/
theorem claim_C10_failing :
    (selectStage3BuyerISQs gradeScenarioStage1 gradeScenarioStage2).map
      BuyerISQ.name = [none, none] := by decide

theorem occursIn_cons_of (pat c cs) (h : occursIn pat (c :: cs) = false) :
    isPrefixCh pat (c :: cs) = false ∧ occursIn pat cs = false := by
  simpa [occursIn, Bool.or_eq_false_iff] using h

theorem findRepl_eq_none {pats : List (List Char × List Char)} {l : List Char}
    (h : ∀ pr ∈ pats, isPrefixCh pr.1 l = false) : findRepl pats l = none := by
  induction pats with
  | nil => rfl
  | cons pr ps ih =>
    obtain ⟨pat, rep⟩ := pr
    have hp : isPrefixCh pat l = false := h (pat, rep) (by simp)
    simp only [findRepl]
    rw [if_neg (by simp [hp])]
    exact ih fun q hq => h q (by simp [hq])

theorem replaceListF_no_occurs {pats : List (List Char × List Char)} :
    ∀ (fuel : Nat) (l : List Char), (∀ pr ∈ pats, occursIn pr.1 l = false) →
      replaceListF pats fuel l = l
  | 0, _, _ => rfl
  | _ + 1, [], _ => rfl
  | fuel + 1, c :: cs, h => by
    have hpre : ∀ pr ∈ pats, isPrefixCh pr.1 (c :: cs) = false :=
      fun pr hpr => (occursIn_cons_of _ c cs (h pr hpr)).1
    have htail : ∀ pr ∈ pats, occursIn pr.1 cs = false :=
      fun pr hpr => (occursIn_cons_of _ c cs (h pr hpr)).2
    simp only [replaceListF, findRepl_eq_none hpre]
    rw [replaceListF_no_occurs fuel cs htail]

theorem replaceList_no_occurs {pats : List (List Char × List Char)}
    {l : List Char} (h : ∀ pr ∈ pats, occursIn pr.1 l = false) :
    replaceList pats l = l :=
  replaceListF_no_occurs _ l h

theorem findRepl_some {pats : List (List Char × List Char)} {l rep rest}
    (h : findRepl pats l = some (rep, rest)) :
    ∃ pr ∈ pats, pr.2 = rep ∧ rest = l.drop pr.1.length := by
  induction pats with
  | nil => simp [findRepl] at h
  | cons q ps ih =>
    by_cases hq : isPrefixCh q.1 l = true
    · obtain ⟨pat, rp⟩ := q
      simp only [findRepl, if_pos hq, Option.some.injEq, Prod.mk.injEq] at h
      exact ⟨(pat, rp), by simp, h.1, h.2.symm⟩
    · obtain ⟨pat, rp⟩ := q
      simp only [findRepl] at h
      rw [if_neg hq] at h
      obtain ⟨pr, hpr, h1, h2⟩ := ih h
      exact ⟨pr, by simp [hpr], h1, h2⟩

theorem mem_replaceListF {pats : List (List Char × List Char)} :
    ∀ (fuel : Nat) (l : List Char) (c : Char), c ∈ replaceListF pats fuel l →
      c ∈ l ∨ ∃ pr ∈ pats, c ∈ pr.2
  | 0, _, _, h => Or.inl h
  | _ + 1, [], _, h => by simp [replaceListF] at h
  | fuel + 1, a :: as, c, h => by
    simp only [replaceListF] at h
    cases hf : findRepl pats (a :: as) with
    | some pr =>
      obtain ⟨rep, rest⟩ := pr
      rw [hf, List.mem_append] at h
      rcases h with h | h
      · obtain ⟨q, hq, h1, -⟩ := findRepl_some hf
        exact Or.inr ⟨q, hq, h1 ▸ h⟩
      · rcases mem_replaceListF fuel rest c h with h' | h'
        · obtain ⟨q, -, -, h2⟩ := findRepl_some hf
          exact Or.inl (List.mem_of_mem_drop (h2 ▸ h'))
        · exact Or.inr h'
    | none =>
      rw [hf, List.mem_cons] at h
      rcases h with rfl | h
      · exact Or.inl (List.mem_cons_self _ _)
      · rcases mem_replaceListF fuel as c h with h' | h'
        · exact Or.inl (List.mem_cons_of_mem _ h')
        · exact Or.inr h'

theorem mem_replaceList {pats : List (List Char × List Char)} {l : List Char}
    {c : Char} (h : c ∈ replaceList pats l) : c ∈ l ∨ ∃ pr ∈ pats, c ∈ pr.2 :=
  mem_replaceListF _ l c h

theorem mem_collapseWs : ∀ (l : List Char) (c : Char), c ∈ collapseWs l →
    c ∈ l ∨ c = ' '
  | [], c, h => by simp [collapseWs] at h
  | [d], c, h => by
    by_cases hd : isJsSpace d
    · rw [show collapseWs [d] = [' '] from by simp [collapseWs, hd]] at h
      exact Or.inr (List.mem_singleton.mp h)
    · rw [show collapseWs [d] = [d] from by simp [collapseWs, hd]] at h
      exact Or.inl h
  | d :: e :: cs, c, h => by
    by_cases hd : isJsSpace d
    · by_cases he : isJsSpace e
      · rw [show collapseWs (d :: e :: cs) = collapseWs (e :: cs) from by
          simp [collapseWs, hd, he]] at h
        rcases mem_collapseWs (e :: cs) c h with h' | h'
        · exact Or.inl (List.mem_cons_of_mem _ h')
        · exact Or.inr h'
      · rw [show collapseWs (d :: e :: cs) = ' ' :: collapseWs (e :: cs) from by
          simp [collapseWs, hd, he], List.mem_cons] at h
        rcases h with rfl | h
        · exact Or.inr rfl
        · rcases mem_collapseWs (e :: cs) c h with h' | h'
          · exact Or.inl (List.mem_cons_of_mem _ h')
          · exact Or.inr h'
    · rw [show collapseWs (d :: e :: cs) = d :: collapseWs (e :: cs) from by
        simp [collapseWs, hd], List.mem_cons] at h
      rcases h with rfl | h
      · exact Or.inl (List.mem_cons_self _ _)
      · rcases mem_collapseWs (e :: cs) c h with h' | h'
        · exact Or.inl (List.mem_cons_of_mem _ h')
        · exact Or.inr h'

theorem trimRightCh_sublist : ∀ l : List Char, List.Sublist (trimRightCh l) l
  | [] => List.Sublist.refl _
  | c :: cs => by
    have hsub := trimRightCh_sublist cs
    simp only [trimRightCh]
    cases hr : trimRightCh cs with
    | nil =>
      show List.Sublist (if isJsSpace c = true then [] else [c]) (c :: cs)
      split
      · exact List.nil_sublist _
      · exact (List.nil_sublist cs).cons₂ c
    | cons d ds =>
      show List.Sublist (c :: d :: ds) (c :: cs)
      exact (hr ▸ hsub).cons₂ c

theorem mem_trimCh {l : List Char} {c : Char} (h : c ∈ trimCh l) : c ∈ l := by
  unfold trimCh trimLeftCh at h
  exact (List.dropWhile_sublist _).mem ((trimRightCh_sublist _).mem h)

theorem lowerCh_fixed (c : Char) : lowerCh (lowerCh c) = lowerCh c := by
  by_cases h : 65 ≤ c.toNat ∧ c.toNat ≤ 90
  · have h1 : lowerCh c = Char.ofNat (c.toNat + 32) := by rw [lowerCh, if_pos h]
    rw [h1, lowerCh, if_neg]
    intro hcon
    obtain ⟨h65, h90⟩ := h
    have hval : (Char.ofNat (c.toNat + 32)).toNat = c.toNat + 32 := by
      generalize c.toNat = n at *
      interval_cases n <;> decide
    rw [hval] at hcon
    omega
  · have h1 : lowerCh c = c := by rw [lowerCh, if_neg h]
    rw [h1, h1]

theorem map_fixed {f : Char → Char} : ∀ {l : List Char},
    (∀ c ∈ l, f c = c) → l.map f = l
  | [], _ => rfl
  | c :: cs, h => by
    rw [List.map_cons, h c (by simp), map_fixed fun d hd => h d (by simp [hd])]

/-- Whitespace characters surviving `collapseWs` are plain spaces. -/
theorem collapseWs_sp : ∀ (l : List Char) (c : Char), c ∈ collapseWs l →
    isJsSpace c = true → c = ' '
  | [], c, h, _ => by simp [collapseWs] at h
  | [d], c, h, hsp => by
    by_cases hd : isJsSpace d
    · rw [show collapseWs [d] = [' '] from by simp [collapseWs, hd]] at h
      exact List.mem_singleton.mp h
    · rw [show collapseWs [d] = [d] from by simp [collapseWs, hd]] at h
      rw [List.mem_singleton.mp h] at hsp
      exact absurd hsp (by simp [hd])
  | d :: e :: cs, c, h, hsp => by
    by_cases hd : isJsSpace d
    · by_cases he : isJsSpace e
      · rw [show collapseWs (d :: e :: cs) = collapseWs (e :: cs) from by
          simp [collapseWs, hd, he]] at h
        exact collapseWs_sp (e :: cs) c h hsp
      · rw [show collapseWs (d :: e :: cs) = ' ' :: collapseWs (e :: cs) from by
          simp [collapseWs, hd, he], List.mem_cons] at h
        rcases h with rfl | h
        · rfl
        · exact collapseWs_sp (e :: cs) c h hsp
    · rw [show collapseWs (d :: e :: cs) = d :: collapseWs (e :: cs) from by
        simp [collapseWs, hd], List.mem_cons] at h
      rcases h with rfl | h
      · exact absurd hsp (by simp [hd])
      · exact collapseWs_sp (e :: cs) c h hsp

theorem noAdjSp_tail {c : Char} {cs : List Char} (h : noAdjSp (c :: cs) = true) :
    noAdjSp cs = true := by
  cases cs with
  | nil => rfl
  | cons d ds =>
    simp only [noAdjSp, Bool.and_eq_true] at h
    exact h.2

theorem noAdjSp_cons_nonsp {c : Char} {l : List Char} (hc : isJsSpace c = false)
    (h : noAdjSp l = true) : noAdjSp (c :: l) = true := by
  cases l with
  | nil => rfl
  | cons d ds => simp [noAdjSp, hc, h]

theorem collapseWs_cons_nonsp {d : Char} (cs : List Char)
    (hd : isJsSpace d = false) : collapseWs (d :: cs) = d :: collapseWs cs := by
  cases cs with
  | nil => simp [collapseWs, hd]
  | cons e es => simp [collapseWs, hd]

theorem collapseWs_noAdj : ∀ l : List Char, noAdjSp (collapseWs l) = true
  | [] => rfl
  | [c] => by
    by_cases hc : isJsSpace c <;> simp [collapseWs, hc, noAdjSp]
  | c :: d :: cs => by
    by_cases hc : isJsSpace c
    · by_cases hd : isJsSpace d
      · rw [show collapseWs (c :: d :: cs) = collapseWs (d :: cs) from by
          simp [collapseWs, hc, hd]]
        exact collapseWs_noAdj (d :: cs)
      · have hd' : isJsSpace d = false := by simpa using hd
        rw [show collapseWs (c :: d :: cs) = ' ' :: collapseWs (d :: cs) from by
          simp [collapseWs, hc, hd], collapseWs_cons_nonsp cs hd']
        have ih := collapseWs_noAdj (d :: cs)
        rw [collapseWs_cons_nonsp cs hd'] at ih
        have hsp : (!(isJsSpace ' ' && isJsSpace d)) = true := by rw [hd']; simp
        simp only [noAdjSp, Bool.and_eq_true]
        exact ⟨hsp, ih⟩
    · have hc' : isJsSpace c = false := by simpa using hc
      rw [show collapseWs (c :: d :: cs) = c :: collapseWs (d :: cs) from by
        simp [collapseWs, hc]]
      exact noAdjSp_cons_nonsp hc' (collapseWs_noAdj (d :: cs))

theorem noAdjSp_dropWhile {p : Char → Bool} :
    ∀ {l : List Char}, noAdjSp l = true → noAdjSp (l.dropWhile p) = true
  | [], _ => rfl
  | c :: cs, h => by
    by_cases hp : p c
    · rw [List.dropWhile_cons_of_pos hp]
      exact noAdjSp_dropWhile (noAdjSp_tail h)
    · rwa [List.dropWhile_cons_of_neg hp]

theorem trimRightCh_head : ∀ {c : Char} {cs : List Char} {d : Char} {ds : List Char},
    trimRightCh (c :: cs) = d :: ds → d = c := by
  intro c cs d ds h
  simp only [trimRightCh] at h
  cases hr : trimRightCh cs with
  | nil =>
    rw [hr] at h
    by_cases hc : isJsSpace c
    · simp [hc] at h
    · simp only [hc, Bool.false_eq_true, if_neg, not_false_iff] at h
      injection h with h1 _
      exact h1.symm
  | cons e es =>
    rw [hr] at h
    injection h with h1 _
    exact h1.symm

theorem noAdjSp_trimRight : ∀ (l : List Char), noAdjSp l = true →
    noAdjSp (trimRightCh l) = true
  | [], _ => rfl
  | c :: cs, h => by
    simp only [trimRightCh]
    cases hr : trimRightCh cs with
    | nil =>
      show noAdjSp (if isJsSpace c = true then [] else [c]) = true
      by_cases hc : isJsSpace c <;> simp [hc, noAdjSp]
    | cons d ds =>
      show noAdjSp (c :: d :: ds) = true
      cases cs with
      | nil => simp [trimRightCh] at hr
      | cons e es =>
        have hde : d = e := trimRightCh_head hr
        have hih : noAdjSp (d :: ds) = true := by
          have hrec := noAdjSp_trimRight (e :: es) (noAdjSp_tail h)
          rwa [hr] at hrec
        have hce : (!(isJsSpace c && isJsSpace e)) = true := by
          have hh := h
          simp only [noAdjSp, Bool.and_eq_true] at hh
          exact hh.1
        rw [hde]
        simp only [noAdjSp, Bool.and_eq_true]
        exact ⟨hce, hde ▸ hih⟩

theorem collapseWs_fixed : ∀ l : List Char, noAdjSp l = true →
    (∀ c ∈ l, isJsSpace c = true → c = ' ') → collapseWs l = l
  | [], _, _ => rfl
  | [c], _, hsp => by
    by_cases hc : isJsSpace c
    · have h' : c = ' ' := hsp c (by simp) hc
      simp [collapseWs, hc, h']
    · simp [collapseWs, hc]
  | c :: d :: cs, hadj, hsp => by
    have htail : collapseWs (d :: cs) = d :: cs :=
      collapseWs_fixed (d :: cs) (noAdjSp_tail hadj) fun x hx => hsp x (by simp [hx])
    by_cases hc : isJsSpace c
    · have hd : isJsSpace d = false := by
        have hh := hadj
        simp only [noAdjSp, Bool.and_eq_true] at hh
        rcases hh with ⟨h1, -⟩
        cases hdd : isJsSpace d
        · rfl
        · rw [hc, hdd] at h1
          simp at h1
      have hcsp : c = ' ' := hsp c (by simp) hc
      rw [show collapseWs (c :: d :: cs) = ' ' :: collapseWs (d :: cs) from by
        simp [collapseWs, hc, hd], htail, hcsp]
    · rw [show collapseWs (c :: d :: cs) = c :: collapseWs (d :: cs) from by
        simp [collapseWs, hc], htail]

theorem dropWhile_head_false {p : Char → Bool} :
    ∀ {l : List Char} {c : Char} {cs : List Char},
      l.dropWhile p = c :: cs → p c = false
  | [], _, _, h => by simp at h
  | a :: as, c, cs, h => by
    by_cases hp : p a
    · rw [List.dropWhile_cons_of_pos hp] at h
      exact dropWhile_head_false h
    · rw [List.dropWhile_cons_of_neg hp] at h
      injection h with h1 _
      rw [← h1]
      simpa using hp

theorem trimRightCh_idem : ∀ l : List Char, trimRightCh (trimRightCh l) = trimRightCh l
  | [] => rfl
  | c :: cs => by
    simp only [trimRightCh]
    cases hr : trimRightCh cs with
    | nil =>
      show trimRightCh (if isJsSpace c = true then [] else [c]) =
        if isJsSpace c = true then [] else [c]
      by_cases hc : isJsSpace c <;> simp [hc, trimRightCh]
    | cons d ds =>
      have ih : trimRightCh (d :: ds) = d :: ds := by
        have := trimRightCh_idem cs
        rwa [hr] at this
      show (match trimRightCh (d :: ds) with
            | [] => if isJsSpace c = true then [] else [c]
            | e :: es => c :: e :: es) = c :: d :: ds
      rw [ih]

/-- The normalized form is a fixed point of whitespace collapsing and trimming. -/
theorem trimCh_collapseWs_fixed (w : List Char) :
    collapseWs (trimCh (collapseWs w)) = trimCh (collapseWs w) ∧
      trimCh (trimCh (collapseWs w)) = trimCh (collapseWs w) := by
  have hadj : noAdjSp (trimCh (collapseWs w)) = true :=
    noAdjSp_trimRight _ (noAdjSp_dropWhile (collapseWs_noAdj w))
  have hsp : ∀ c ∈ trimCh (collapseWs w), isJsSpace c = true → c = ' ' :=
    fun c hc => collapseWs_sp w c (mem_trimCh hc)
  refine ⟨collapseWs_fixed _ hadj hsp, ?_⟩
  have hleft : trimLeftCh (trimCh (collapseWs w)) = trimCh (collapseWs w) := by
    unfold trimCh
    cases hr : trimRightCh (trimLeftCh (collapseWs w)) with
    | nil => rfl
    | cons c cs =>
      have hc : isJsSpace c = false := by
        cases htl : trimLeftCh (collapseWs w) with
        | nil => rw [htl] at hr; simp [trimRightCh] at hr
        | cons a as =>
          rw [htl] at hr
          rw [trimRightCh_head hr]
          exact dropWhile_head_false htl
      unfold trimLeftCh
      rw [List.dropWhile_cons_of_neg (by simp [hc])]
  show trimRightCh (trimLeftCh (trimCh (collapseWs w))) = trimCh (collapseWs w)
  rw [hleft]
  show trimRightCh (trimRightCh (trimLeftCh (collapseWs w))) =
    trimRightCh (trimLeftCh (collapseWs w))
  exact trimRightCh_idem _

/-- C8 (counterexample): `normalizeSpecName` is not idempotent.  Removing
`sheet` from `"matsheeterial"` creates the string `"material"`, which a second
normalization erases entirely. -/
theorem claim_C8_counterexample :
    normalizeSpecName (normalizeSpecName "matsheeterial") ≠
      normalizeSpecName "matsheeterial" := by decide

/-- C8 (amended): `normalizeSpecName` is idempotent at every string whose
normalized form contains none of the six rewritten substrings
(`sheet`, `plate`, `material`, `perforation`, `thk`, `type`); in general a
removal can create a fresh occurrence and idempotence fails. -/
theorem claim_C8_amended (s : String)
    (h : ∀ p ∈ normalizePats, occursIn p (normalizeSpecName s).data = false) :
    normalizeSpecName (normalizeSpecName s) = normalizeSpecName s := by
  have hlow : ∀ c ∈ (normalizeSpecName s).data, lowerCh c = c := by
    intro c hc
    have hc1 : c ∈ collapseWs (replaceList typePat (replaceList thkPat
        (replaceList perforationPat (replaceList removePats
          (s.data.map lowerCh))))) := mem_trimCh hc
    rcases mem_collapseWs _ c hc1 with hc2 | rfl
    · rcases mem_replaceList hc2 with hc3 | ⟨pr, hpr, hcp⟩
      · rcases mem_replaceList hc3 with hc4 | ⟨pr, hpr, hcp⟩
        · rcases mem_replaceList hc4 with hc5 | ⟨pr, hpr, hcp⟩
          · rcases mem_replaceList hc5 with hc6 | ⟨pr, hpr, hcp⟩
            · obtain ⟨c0, -, rfl⟩ := List.mem_map.mp hc6
              exact lowerCh_fixed c0
            · simp only [removePats, List.mem_cons, List.mem_singleton,
                List.not_mem_nil, or_false] at hpr
              rcases hpr with rfl | rfl | rfl <;> simp at hcp
          · obtain rfl : pr = ("perforation".data, "hole".data) := by
              simpa [perforationPat] using hpr
            exact (by decide : ∀ x ∈ "hole".data, lowerCh x = x) c hcp
        · obtain rfl : pr = ("thk".data, "thickness".data) := by
            simpa [thkPat] using hpr
          exact (by decide : ∀ x ∈ "thickness".data, lowerCh x = x) c hcp
      · obtain rfl : pr = ("type".data, "shape".data) := by
          simpa [typePat] using hpr
        exact (by decide : ∀ x ∈ "shape".data, lowerCh x = x) c hcp
    · decide
  have hocc : ∀ pats : List (List Char × List Char),
      (∀ pr ∈ pats, pr.1 ∈ normalizePats) →
      replaceList pats (normalizeSpecName s).data = (normalizeSpecName s).data :=
    fun pats hsub => replaceList_no_occurs fun pr hpr => h pr.1 (hsub pr hpr)
  have hfix := trimCh_collapseWs_fixed (replaceList typePat (replaceList thkPat
    (replaceList perforationPat (replaceList removePats (s.data.map lowerCh)))))
  show (⟨trimCh (collapseWs (replaceList typePat (replaceList thkPat
      (replaceList perforationPat (replaceList removePats
        ((normalizeSpecName s).data.map lowerCh))))))⟩ : String) = normalizeSpecName s
  rw [map_fixed hlow,
    hocc removePats (by
      intro pr hpr
      simp only [removePats, List.mem_cons, List.mem_singleton,
        List.not_mem_nil, or_false] at hpr
      rcases hpr with rfl | rfl | rfl <;> simp [normalizePats]),
    hocc perforationPat (by
      intro pr hpr
      obtain rfl : pr = ("perforation".data, "hole".data) := by
        simpa [perforationPat] using hpr
      simp [normalizePats]),
    hocc thkPat (by
      intro pr hpr
      obtain rfl : pr = ("thk".data, "thickness".data) := by
        simpa [thkPat] using hpr
      simp [normalizePats]),
    hocc typePat (by
      intro pr hpr
      obtain rfl : pr = ("type".data, "shape".data) := by
        simpa [typePat] using hpr
      simp [normalizePats])]
  show (⟨trimCh (collapseWs (trimCh (collapseWs (replaceList typePat (replaceList thkPat
      (replaceList perforationPat (replaceList removePats
        (s.data.map lowerCh))))))))⟩ : String) = normalizeSpecName s
  rw [hfix.1, hfix.2]
  rfl

theorem claim_C8_amended_witness :
    (∀ p ∈ normalizePats, occursIn p (normalizeSpecName "Thk").data = false) ∧
      normalizeSpecName (normalizeSpecName "Thk") = normalizeSpecName "Thk" :=
  ⟨by decide, claim_C8_amended "Thk" (by decide)⟩

example : extractJSONFromGemini emptyResponse = none := rfl
example : extractJSONFromGemini parseFailResponse = none := rfl
example : extractJSONFromGemini fencedResponse = some (.obj [("a", .num 1)]) := rfl
example : extractISQFromResponse emptyResponse = stage2ToRaw generateFallbackStage2 := rfl
example : jGetStr (extractISQFromResponse emptyResponse).config "name" = "Unknown" := rfl

example : extractJSONFromGemini invalidISQResponse = some invalidISQParsed := rfl
example :
    extractISQFromResponse invalidISQResponse =
      { config := .obj [("name", .str "Material"), ("options", .arr [.str "a"])],
        keys := .arr [.obj [("name", .str "material "),
                            ("options", .arr [.str "a", .str "b"])]],
        buyers := .arr [] } := rfl

/-! ## Claims about the extraction pipeline -/

/-- C5 (counterexample): when the model yields nothing usable (no candidates,
no raw text) the Stage 2 extractor's hardcoded default has config name
`Unknown`, not `Material Grade` as the claim states. -/
theorem claim_C5_counterexample :
    jGetStr (extractISQFromResponse emptyResponse).config "name" = "Unknown" ∧
      jGetStr (extractISQFromResponse emptyResponse).config "name" ≠
        "Material Grade" :=
  ⟨rfl, by decide⟩

/-- C5 (amended): when the decoded response holds nothing usable (no
candidates, hence a `null` decode and empty raw text), the Stage 2 extraction
decision returns `generateFallbackStage2()`, which is
`{config: {name: "Unknown", options: []}, keys: [], buyers: []}` — the
extractor still yields a structurally valid value instead of stalling. -/
theorem claim_C5_amended :
    extractISQFromResponse emptyResponse = stage2ToRaw generateFallbackStage2 ∧
      generateFallbackStage2 =
        { config := { name := "Unknown", options := [] }, keys := [],
          buyers := [] } :=
  ⟨rfl, rfl⟩

/-- C6 (counterexample): the payload with `config.options.length = 1 < 2`, a
single key (`keys.length = 1 < 3`) and a key name normalizing identically to
the config name (`Material` vs `"material "`) is accepted verbatim by the
Stage 2 decision — no `isValidISQSet` validation rejects it and no further
extraction strategy runs. -/
theorem claim_C6_counterexample :
    extractISQFromResponse invalidISQResponse =
        { config := .obj [("name", .str "Material"), ("options", .arr [.str "a"])],
          keys := .arr [.obj [("name", .str "material "),
                              ("options", .arr [.str "a", .str "b"])]],
          buyers := .arr [] } ∧
      normalizeSpecName "Material" = normalizeSpecName "material " :=
  ⟨rfl, by decide⟩

/-- C6 (amended): a decoded Stage 2 result is accepted exactly when the decode
is non-null and `parsed`, `parsed.config` and `parsed.config.name` are all
truthy; the accepted value is passed through unvalidated, with `keys` and
`buyers` defaulting to `[]` when falsy.  No option-count, key-count or
duplicate-name validation exists. -/
theorem claim_C6_amended (data : GeminiResponse) (p : JsonVal)
    (h1 : extractJSONFromGemini data = some p)
    (h2 : jsTruthy p = true)
    (h3 : jsTruthy (jGet p "config") = true)
    (h4 : jsTruthy (jGet (jGet p "config") "name") = true) :
    extractISQFromResponse data =
      { config := jGet p "config",
        keys := jsOr (jGet p "keys") (.arr []),
        buyers := jsOr (jGet p "buyers") (.arr []) } := by
  unfold extractISQFromResponse
  rw [h1]
  simp [h2, h3, h4]

theorem claim_C6_amended_witness :
    extractISQFromResponse invalidISQResponse =
      { config := jGet invalidISQParsed "config",
        keys := jsOr (jGet invalidISQParsed "keys") (.arr []),
        buyers := jsOr (jGet invalidISQParsed "buyers") (.arr []) } :=
  claim_C6_amended invalidISQResponse invalidISQParsed rfl rfl rfl rfl

/-- C7: the Response Unwrapper returns `null` when the response has no
candidate content, returns `null` on a JSON parse failure, and for the fenced
example `"Sure! Here\x27s the JSON: ...json fence...{"a":1,}..."` strips the
fences and the trailing comma and decodes the payload `{a:1}`. -/
theorem claim_C7 :
    extractJSONFromGemini emptyResponse = none ∧
      extractJSONFromGemini parseFailResponse = none ∧
      extractJSONFromGemini fencedResponse = some (.obj [("a", .num 1)]) :=
  ⟨rfl, rfl, rfl⟩

/-- C9: `generateStage1WithGemini` throws exactly when the trimmed Stage 1 key
is empty or the awaited call failed with a message containing `429` or `quota`;
with a configured key, a successful fetch whose body decodes to `null` yields
`generateFallbackStage1()` (that is, `{seller_specs: []}`) instead of an
error. -/
theorem claim_C9 (envKey : Option String) (outcome : Except String GeminiResponse) :
    ((∃ e, generateStage1WithGemini envKey outcome = .error e) ↔
      (jsTrim (envKey.getD "") = "" ∨
        ∃ msg, outcome = .error msg ∧
          (occursStr "429" msg = true ∨ occursStr "quota" msg = true))) ∧
      (∀ data, outcome = .ok data → jsTrim (envKey.getD "") ≠ "" →
        extractJSONFromGemini data = none →
        generateStage1WithGemini envKey outcome = .ok generateFallbackStage1) := by
  constructor
  · constructor
    · rintro ⟨e, he⟩
      by_cases hk : jsTrim (envKey.getD "") = ""
      · exact Or.inl hk
      · unfold generateStage1WithGemini at he
        rw [if_neg hk] at he
        cases outcome with
        | ok data =>
          exfalso
          cases hj : extractJSONFromGemini data with
          | some j =>
            simp only [hj] at he
            by_cases ht : jsTruthy j = true <;> simp [ht] at he
          | none => simp only [hj] at he; simp at he
        | error msg =>
          by_cases hq : (occursStr "429" msg || occursStr "quota" msg) = true
          · refine Or.inr ⟨msg, rfl, ?_⟩
            rcases Bool.or_eq_true _ _ ▸ hq with h | h
            · exact Or.inl h
            · exact Or.inr h
          · simp [hq] at he
    · intro h
      rcases h with hk | ⟨msg, rfl, hq⟩
      · refine ⟨"Stage 1 API key is not configured. Please add VITE_STAGE1_API_KEY to your .env file.", ?_⟩
        unfold generateStage1WithGemini
        rw [if_pos hk]
      · by_cases hk : jsTrim (envKey.getD "") = ""
        · refine ⟨"Stage 1 API key is not configured. Please add VITE_STAGE1_API_KEY to your .env file.", ?_⟩
          unfold generateStage1WithGemini
          rw [if_pos hk]
        · refine ⟨"Stage 1 API key quota exhausted. Please check your API limits.", ?_⟩
          unfold generateStage1WithGemini
          rw [if_neg hk]
          have hq' : (occursStr "429" msg || occursStr "quota" msg) = true := by
            rcases hq with h | h <;> simp [h]
          simp [hq']
  · intro data hdata hk hdec
    subst hdata
    unfold generateStage1WithGemini
    rw [if_neg hk]
    simp only [hdec]

theorem claim_C9_witness :
    (∃ e, generateStage1WithGemini (some "key")
        (.error "Gemini API error 429: rate limited") = .error e) ∧
      generateStage1WithGemini (some "key") (.ok emptyResponse) =
        .ok generateFallbackStage1 :=
  ⟨(claim_C9 (some "key") (.error "Gemini API error 429: rate limited")).1.mpr
    (Or.inr ⟨"Gemini API error 429: rate limited", rfl, Or.inl (by decide)⟩),
   (claim_C9 (some "key") (.ok emptyResponse)).2 emptyResponse rfl
     (by decide) rfl⟩

end SpecCreation
